import Mathlib

/-!
Verification of the relifeparty admin dashboard against its specification.

The repository's one algorithmic component is the generic client-side
data table (the "Tabular View Engine" of the spec): search, per-column
filter, sort and paginate over an in-memory record collection.  Its
implementation file is not part of the sources available here (only its
callers are), so the engine is modelled from the spec, as marked on each
definition.  The delete handlers, the UUID validator and the attendance
map builder are embedded from the source files directly.
-/

namespace Relife

/-- Field values of a record: the spec's data model says values are
strings, numbers, booleans, dates, or nulls.  Numbers and dates are
modelled by integers (numeric / chronological comparison). -/
inductive Value where
  | str (s : String)
  | num (n : Int)
  | bool (b : Bool)
  | date (d : Int)
  | null
deriving DecidableEq, Repr

/-- A record is a mapping from field name to value, modelled as an
association list (ordered, finite). -/
abbrev Rec := List (String × Value)

/-- Column descriptor of the spec: key, sortable flag, filterable flag.
The optional custom render function only affects display, not the
engine's row selection, so it is omitted. -/
structure Column where
  key : String
  sortable : Bool
  filterable : Bool
deriving DecidableEq, Repr

/-- Sort direction of the view state. -/
inductive SortDirection where
  | asc
  | desc
deriving DecidableEq, Repr

/-- View state of the spec: searchTerm, columnFilters, sortColumn,
sortDirection, currentPage, pageSize. -/
structure ViewState where
  searchTerm : String
  columnFilters : List (String × String)
  sortColumn : Option String
  sortDirection : SortDirection
  currentPage : Nat
  pageSize : Nat
deriving DecidableEq, Repr

/-- Result of the engine: visible rows, total filtered count, total
page count. -/
structure RenderResult where
  rows : List Rec
  totalCount : Nat
  totalPages : Nat
deriving DecidableEq, Repr

/-- Modelled from the spec: canonical display string of a field value
(the missing DataTable component renders values through String
conversion). A null value displays as the empty string, per the spec's
edge case "null/absent must be treated as an empty string". -/
def displayString : Value → String
  | .str s => s
  | .num n => toString n
  | .bool b => if b then "true" else "false"
  | .date d => toString d
  | .null => ""

/-- Substring test on character lists: does hay contain needle as a
contiguous sublist? -/
def containsSub (hay needle : List Char) : Bool :=
  match hay with
  | [] => needle.isEmpty
  | _ :: t => needle.isPrefixOf hay || containsSub t needle

/-- Lowercased character list of a string (ASCII case folding, as
JavaScript's toLowerCase acts on these strings). -/
def lowerChars (s : String) : List Char :=
  s.data.map Char.toLower

/-- Case-insensitive substring test on strings, as the engine performs
for search and per-column filters. -/
def containsCI (hay needle : String) : Bool :=
  containsSub (lowerChars hay) (lowerChars needle)

/-- Modelled from the spec: a record matches the search term when the
display string of any of its fields contains the term
case-insensitively. -/
def matchesSearch (term : String) (r : Rec) : Bool :=
  r.any (fun kv => containsCI (displayString kv.2) term)

/-- Modelled from the spec: the search step of the missing DataTable
component: an empty term retains all records, a non-empty term keeps the
records with a matching field. -/
def searchStep (term : String) (c : List Rec) : List Rec :=
  if term = "" then c else c.filter (fun r => matchesSearch term r)

/-- Value of a record at a field key; a missing key behaves as null
(hence as the empty string once displayed). -/
def lookupVal (r : Rec) (k : String) : Value :=
  match r.lookup k with
  | some v => v
  | none => Value.null

/-- Modelled from the spec: a record passes the per-column filters when,
for every filter entry with a non-empty value, its display string at
that key contains the filter value case-insensitively (logical AND). -/
def filterPass (filters : List (String × String)) (r : Rec) : Bool :=
  filters.all (fun kf => kf.2 == "" || containsCI (displayString (lookupVal r kf.1)) kf.2)

/-- Modelled from the spec: the filtering stage: search, then the
per-column filters intersected with it. -/
def filterStage (term : String) (filters : List (String × String)) (c : List Rec) :
    List Rec :=
  (searchStep term c).filter (fun r => filterPass filters r)

/-- Lexicographic (ordinal, locale-independent) strict order on
character lists. -/
def charListLt : List Char → List Char → Bool
  | _, [] => false
  | [], _ :: _ => true
  | a :: as, b :: bs =>
    if a < b then true else if b < a then false else charListLt as bs

/-- Modelled from the spec: strict total order on raw field values:
numbers numerically, strings ordinally, dates chronologically, booleans
false before true; values of different shapes are ranked null < bool <
number < date < string. -/
def valLt : Value → Value → Bool
  | .num a, .num b => decide (a < b)
  | .str a, .str b => charListLt a.data b.data
  | .bool a, .bool b => !a && b
  | .date a, .date b => decide (a < b)
  | .null, .null => false
  | a, b => decide (rank a < rank b)
where
  /-- Shape rank used to order values of different shapes. -/
  rank : Value → Nat
  | .null => 0
  | .bool _ => 1
  | .num _ => 2
  | .date _ => 3
  | .str _ => 4

/-- Comparator of the sort stage: compares two records at the sort
column, reversed when the direction is descending; equal keys compare
equal in both directions (so a stable sort stays stable). -/
def recLt (dir : SortDirection) (key : String) (a b : Rec) : Bool :=
  match dir with
  | .asc => valLt (lookupVal a key) (lookupVal b key)
  | .desc => valLt (lookupVal b key) (lookupVal a key)

/-- Stable ordered insertion: x is placed before the first element not
strictly below it, so elements equal to x (inserted later in input
order never happens: x is always the earliest) keep their order. -/
def insertSorted (lt : Rec → Rec → Bool) (x : Rec) : List Rec → List Rec
  | [] => [x]
  | y :: ys => if lt y x then y :: insertSorted lt x ys else x :: y :: ys

/-- Stable insertion sort. -/
def insertionSort (lt : Rec → Rec → Bool) : List Rec → List Rec
  | [] => []
  | x :: xs => insertSorted lt x (insertionSort lt xs)

/-- Modelled from the spec: the sort stage: identity when sortColumn is
unset, otherwise a stable sort by the record's raw value at the sort
column. -/
def sortStage (sc : Option String) (dir : SortDirection) (l : List Rec) : List Rec :=
  match sc with
  | none => l
  | some key => insertionSort (recLt dir key) l

/-- Modelled from the spec: total page count: ceil(N / pageSize) with a
floor of one page. -/
def totalPagesOf (n pageSize : Nat) : Nat :=
  max 1 ((n + pageSize - 1) / pageSize)

set_option linter.unusedVariables false in
/-- Modelled from the spec: the full engine: filter, sort, then slice
the page, clamping currentPage to the total page count.  The column
descriptors only affect display, never row selection, so the engine's
output does not depend on them. -/
def render (c : List Rec) (cols : List Column) (st : ViewState) : RenderResult :=
  let filtered := filterStage st.searchTerm st.columnFilters c
  let sorted := sortStage st.sortColumn st.sortDirection filtered
  let n := sorted.length
  let tp := totalPagesOf n st.pageSize
  let page := min st.currentPage tp
  { rows := (sorted.drop ((page - 1) * st.pageSize)).take st.pageSize
    totalCount := n
    totalPages := tp }

/-! ### Delete handlers of the list screens (src/unnamed/part_005
confirmDelete, src/src/pages/Committees.tsx confirmDelete) -/

/-- A personnel/committee record as the delete handlers see it: only
the id drives deletion, the rest of the row is abstracted as payload. -/
structure StoredRec where
  id : String
  payload : String
deriving DecidableEq, Repr

/-- Outcome of the record store's delete call: success, or a thrown
error carrying a Postgres error code (e.g. "23503" for a foreign-key
restriction). -/
inductive DeleteOutcome where
  | ok
  | err (code : String)
deriving DecidableEq, Repr

/-- Error message chosen by the personnel screen's catch block
(src/unnamed/part_005, lines 123-130): a dedicated message for code
23503, a generic one otherwise. -/
def deleteErrorMessage (code : String) : String :=
  if code == "23503" then
    "This person cannot be deleted as they are referenced in other records (e.g., as a proposer of a motion)."
  else
    "Failed to delete personnel."

/-- confirmDelete of the list screens (src/unnamed/part_005 lines
116-133): on success the local collection is replaced by
prev.filter(p => p.id !== deleted.id); on a thrown error the collection
is untouched and an error message is surfaced. Returns the new local
collection and the surfaced error message, if any. -/
def confirmDelete (coll : List StoredRec) (target : StoredRec)
    (outcome : DeleteOutcome) : List StoredRec × Option String :=
  match outcome with
  | .ok => (coll.filter (fun p => p.id != target.id), none)
  | .err code => (coll, some (deleteErrorMessage code))

/-! ### isValidUUID (src/unnamed/part_003, lines 47-54) -/

/-- Hexadecimal digit of the regex character class [0-9a-f] under the
case-insensitive flag. -/
def isHexDigit (c : Char) : Bool :=
  (decide ('0' ≤ c) && decide (c ≤ '9')) ||
    (decide ('a' ≤ c) && decide (c ≤ 'f')) ||
    (decide ('A' ≤ c) && decide (c ≤ 'F'))

/-- The regex class [1-5]: the UUID version digit. -/
def isVersionDigit (c : Char) : Bool :=
  decide ('1' ≤ c) && decide (c ≤ '5')

/-- The regex class [89ab] under the case-insensitive flag: the UUID
variant digit. -/
def isVariantDigit (c : Char) : Bool :=
  c == '8' || c == '9' || c == 'a' || c == 'b' || c == 'A' || c == 'B'

/-- Consume exactly n characters of a class from the front of a list,
returning the remainder on success ([class]-braces-n of the regex). -/
def classRun (p : Char → Bool) : Nat → List Char → Option (List Char)
  | 0, l => some l
  | _ + 1, [] => none
  | n + 1, c :: l => if p c then classRun p n l else none

/-- Consume one expected literal character from the front of a list. -/
def expectChar (c : Char) : List Char → Option (List Char)
  | [] => none
  | d :: l => if d == c then some l else none

/-- Consume one character of a class from the front of a list. -/
def expectIn (p : Char → Bool) : List Char → Option (List Char)
  | [] => none
  | d :: l => if p d then some l else none

/-- The regex test of isValidUUID: anchored match of
8 hex, '-', 4 hex, '-', [1-5] then 3 hex, '-', [89ab] then 3 hex, '-',
12 hex, end of string, all case-insensitive. -/
def uuidRegexTest (s : String) : Bool :=
  (((((((((((classRun isHexDigit 8 s.data).bind
    (expectChar '-')).bind
    (classRun isHexDigit 4)).bind
    (expectChar '-')).bind
    (expectIn isVersionDigit)).bind
    (classRun isHexDigit 3)).bind
    (expectChar '-')).bind
    (expectIn isVariantDigit)).bind
    (classRun isHexDigit 3)).bind
    (expectChar '-')).bind
    (classRun isHexDigit 12)) == some []

/-- isValidUUID (src/unnamed/part_003 lines 47-54): null and undefined
are modelled as none; a falsy string (the empty string) is rejected by
the !uuid guard, any other string is tested against the UUID regex. -/
def isValidUUID : Option String → Bool
  | none => false
  | some s => if s == "" then false else uuidRegexTest s

/-! ### Attendance map of the Meetings screen
(src/src/pages/Meetings.tsx, handleAttendance, lines 90-116) -/

/-- The slice of a personnel row that handleAttendance uses: its id. -/
structure Person where
  id : String
  name : String
deriving DecidableEq, Repr

/-- The slice of a meeting_attendance row that handleAttendance uses. -/
structure AttRow where
  personnel_id : String
  attended : Bool
deriving DecidableEq, Repr

/-- The per-person flag of handleAttendance: record?.attended || false,
where record is the first fetched attendance row whose personnel_id is
the person's id. -/
def attendedFlag (attendance : List AttRow) (pid : String) : Bool :=
  match attendance.find? (fun a => a.personnel_id == pid) with
  | some r => r.attended
  | none => false

/-- The attendance map construction of handleAttendance: for each
loaded personnel member, look for their record among the fetched
attendance rows and take record?.attended || false. The JavaScript
object keyed by person.id is modelled as an association list built in
personnel order. -/
def buildAttendanceMap (personnel : List Person) (attendance : List AttRow) :
    List (String × Bool) :=
  personnel.map (fun p => (p.id, attendedFlag attendance p.id))

/-- The UUID pattern as the claim states it: five dash-separated
hexadecimal groups of sizes 8, 4, 4, 4 and 12, the third group led by a
version digit 1-5 and the fourth by a variant digit 8, 9, a or b,
case-insensitively. -/
def uuidSpec (s : String) : Prop :=
  ∃ (g1 g2 r3 r4 g5 : List Char) (v w : Char),
    s.data = g1 ++ '-' :: (g2 ++ '-' :: v :: (r3 ++ '-' :: w :: (r4 ++ '-' :: g5))) ∧
    g1.length = 8 ∧ g1.all isHexDigit = true ∧
    g2.length = 4 ∧ g2.all isHexDigit = true ∧
    isVersionDigit v = true ∧ r3.length = 3 ∧ r3.all isHexDigit = true ∧
    isVariantDigit w = true ∧ r4.length = 3 ∧ r4.all isHexDigit = true ∧
    g5.length = 12 ∧ g5.all isHexDigit = true

end Relife



namespace Relife

/-! ### Helper lemmas about the engine's stages -/

theorem mem_searchStep (term : String) (c : List Rec) (r : Rec) :
    r ∈ searchStep term c ↔ r ∈ c ∧ (term = "" ∨ matchesSearch term r = true) := by
  unfold searchStep
  by_cases h : term = "" <;> simp [h, List.mem_filter]

theorem mem_filterStage (term : String) (filters : List (String × String))
    (c : List Rec) (r : Rec) :
    r ∈ filterStage term filters c ↔
      r ∈ c ∧ (term = "" ∨ matchesSearch term r = true) ∧ filterPass filters r = true := by
  unfold filterStage
  rw [List.mem_filter, mem_searchStep]
  tauto

theorem mem_insertSorted (lt : Rec → Rec → Bool) (x a : Rec) (l : List Rec) :
    a ∈ insertSorted lt x l ↔ a = x ∨ a ∈ l := by
  induction l with
  | nil => simp [insertSorted]
  | cons y ys ih =>
    by_cases h : lt y x = true
    · simp only [insertSorted, h, if_true, List.mem_cons, ih]
      tauto
    · simp only [insertSorted, h, if_false, Bool.false_eq_true, List.mem_cons]

theorem mem_insertionSort (lt : Rec → Rec → Bool) (a : Rec) (l : List Rec) :
    a ∈ insertionSort lt l ↔ a ∈ l := by
  induction l with
  | nil => simp [insertionSort]
  | cons x xs ih => simp [insertionSort, mem_insertSorted, ih]

theorem mem_sortStage (sc : Option String) (dir : SortDirection) (l : List Rec) (a : Rec) :
    a ∈ sortStage sc dir l ↔ a ∈ l := by
  cases sc with
  | none => simp [sortStage]
  | some key => simp [sortStage, mem_insertionSort]

theorem filter_insertSorted (lt : Rec → Rec → Bool) (p : Rec → Bool) (x : Rec)
    (l : List Rec) (hc : ∀ y, p x = true → lt y x = true → p y = false) :
    (insertSorted lt x l).filter p =
      if p x then x :: l.filter p else l.filter p := by
  induction l with
  | nil =>
    by_cases hx : p x = true <;> simp [insertSorted, List.filter, hx]
  | cons y ys ih =>
    by_cases h : lt y x = true
    · by_cases hx : p x = true
      · have hy : p y = false := hc y hx h
        simp only [insertSorted, h, if_true, List.filter_cons, hy, Bool.false_eq_true,
          if_false, ih, hx, if_true]
      · simp only [insertSorted, h, if_true, List.filter_cons, ih, hx, Bool.false_eq_true,
          if_false]
    · by_cases hx : p x = true <;>
        simp [insertSorted, h, List.filter_cons, hx]

theorem filter_insertionSort (lt : Rec → Rec → Bool) (p : Rec → Bool) (l : List Rec)
    (hc : ∀ x y, p x = true → lt y x = true → p y = false) :
    (insertionSort lt l).filter p = l.filter p := by
  induction l with
  | nil => rfl
  | cons x xs ih =>
    rw [insertionSort, filter_insertSorted lt p x _ (fun y hx hlt => hc x y hx hlt)]
    by_cases hx : p x = true <;> simp [List.filter_cons, hx, ih]

theorem charListLt_irrefl (l : List Char) : charListLt l l = false := by
  induction l with
  | nil => rfl
  | cons c cs ih => simp [charListLt, ih]

theorem valLt_irrefl (v : Value) : valLt v v = false := by
  cases v with
  | str s => simp [valLt, charListLt_irrefl]
  | num n => simp [valLt]
  | bool b => cases b <;> simp [valLt]
  | date d => simp [valLt]
  | null => rfl

theorem valLt_ne (a b : Value) (h : valLt a b = true) : a ≠ b := by
  intro he
  rw [he, valLt_irrefl] at h
  exact Bool.false_ne_true h

end Relife

namespace Relife

theorem length_insertSorted (lt : Rec → Rec → Bool) (x : Rec) (l : List Rec) :
    (insertSorted lt x l).length = l.length + 1 := by
  induction l with
  | nil => rfl
  | cons y ys ih =>
    by_cases h : lt y x = true <;> simp [insertSorted, h, ih]

theorem length_insertionSort (lt : Rec → Rec → Bool) (l : List Rec) :
    (insertionSort lt l).length = l.length := by
  induction l with
  | nil => rfl
  | cons x xs ih => simp [insertionSort, length_insertSorted, ih]

theorem length_sortStage (sc : Option String) (dir : SortDirection) (l : List Rec) :
    (sortStage sc dir l).length = l.length := by
  cases sc with
  | none => rfl
  | some key => simp [sortStage, length_insertionSort]

/-! ### Helper lemmas about pagination arithmetic -/

theorem totalPagesOf_zero (P : Nat) : totalPagesOf 0 P = 1 := by
  unfold totalPagesOf
  cases P with
  | zero => rfl
  | succ p =>
    have h : (0 + (p + 1) - 1) / (p + 1) = 0 := Nat.div_eq_of_lt (by omega)
    rw [h]
    rfl

theorem totalPagesOf_pos (n P : Nat) : 0 < totalPagesOf n P :=
  le_max_left 1 _

theorem totalPagesOf_bounds (n P : Nat) (hP : 0 < P) (hn : 0 < n) :
    n ≤ totalPagesOf n P * P ∧ totalPagesOf n P * P < n + P := by
  have hdm := Nat.div_add_mod (n + P - 1) P
  have hml : (n + P - 1) % P < P := Nat.mod_lt _ hP
  have htp : totalPagesOf n P = (n + P - 1) / P := by
    have h1 : 1 ≤ (n + P - 1) / P := by
      rw [Nat.le_div_iff_mul_le hP]
      omega
    unfold totalPagesOf
    generalize (n + P - 1) / P = q at h1 ⊢
    omega
  rw [htp]
  generalize hq : (n + P - 1) / P = q at hdm
  generalize hr : (n + P - 1) % P = r at hdm hml
  have hqP : q * P = P * q := Nat.mul_comm q P
  rw [hqP]
  generalize P * q = X at hdm ⊢
  omega

theorem totalPagesOf_pred_mul_lt (n P : Nat) (hP : 0 < P) (hn : 0 < n) :
    (totalPagesOf n P - 1) * P < n := by
  have hb := (totalPagesOf_bounds n P hP hn).2
  have hp := totalPagesOf_pos n P
  rw [Nat.sub_mul, Nat.one_mul]
  generalize totalPagesOf n P * P = X at hb ⊢
  omega

theorem render_totalCount (c : List Rec) (cols : List Column) (st : ViewState) :
    (render c cols st).totalCount =
      (sortStage st.sortColumn st.sortDirection
        (filterStage st.searchTerm st.columnFilters c)).length := rfl

theorem render_totalPages (c : List Rec) (cols : List Column) (st : ViewState) :
    (render c cols st).totalPages =
      totalPagesOf (render c cols st).totalCount st.pageSize := rfl

theorem render_rows (c : List Rec) (cols : List Column) (st : ViewState) :
    (render c cols st).rows =
      ((sortStage st.sortColumn st.sortDirection
          (filterStage st.searchTerm st.columnFilters c)).drop
        ((min st.currentPage (render c cols st).totalPages - 1) * st.pageSize)).take
        st.pageSize := rfl

end Relife

namespace Relife

/-- C7: render is a pure, stateless, deterministic function of its three
inputs: two calls with identical arguments yield identical outputs. -/
theorem render_pure_spec (c : List Rec) (cols : List Column) (st : ViewState) :
    render c cols st = render c cols st := rfl

/-- C1: the search step retains exactly the records with some field
whose display string contains the term case-insensitively, an empty
term retains all of the collection, and render's output rows are always
a subset of the collection. -/
theorem search_step_spec (c : List Rec) (cols : List Column) (st : ViewState)
    (r : Rec) :
    (r ∈ searchStep st.searchTerm c ↔
      r ∈ c ∧ (st.searchTerm = "" ∨ matchesSearch st.searchTerm r = true))
    ∧ searchStep "" c = c
    ∧ (r ∈ (render c cols st).rows → r ∈ c) := by
  refine ⟨mem_searchStep _ _ _, by simp [searchStep], ?_⟩
  intro hr
  rw [render_rows] at hr
  have h1 : r ∈ (sortStage st.sortColumn st.sortDirection
      (filterStage st.searchTerm st.columnFilters c)) :=
    ((List.take_sublist _ _).trans (List.drop_sublist _ _)).mem hr
  rw [mem_sortStage, mem_filterStage] at h1
  exact h1.1

/-- C1 witness: a concrete record returned by render belongs to the
input collection. -/
theorem search_step_spec_witness :
    [("a", Value.str "x")] ∈ ([[("a", Value.str "x")], [("a", Value.str "y")]] : List Rec) :=
  (search_step_spec [[("a", Value.str "x")], [("a", Value.str "y")]] []
    ⟨"x", [], none, .asc, 1, 10⟩ [("a", Value.str "x")]).2.2 (by decide)

/-- C5: a record survives the filtering stage iff it passes the search
step and every non-empty column filter matches its display string at
that column case-insensitively (logical AND); in particular filtering
status by "pending" over Pending/Passed/pending keeps the two
case-insensitive matches in their original order. -/
theorem column_filters_and_spec (c : List Rec) (r : Rec) (term : String)
    (filters : List (String × String)) :
    (r ∈ filterStage term filters c ↔
      r ∈ c ∧ (term = "" ∨ matchesSearch term r = true) ∧
        ∀ kf ∈ filters, kf.2 = "" ∨
          containsCI (displayString (lookupVal r kf.1)) kf.2 = true)
    ∧ filterStage "" [("status", "pending")]
        [[("status", Value.str "Pending")], [("status", Value.str "Passed")],
          [("status", Value.str "pending")]] =
        [[("status", Value.str "Pending")], [("status", Value.str "pending")]] := by
  constructor
  · rw [mem_filterStage]
    have h : filterPass filters r = true ↔
        ∀ kf ∈ filters, kf.2 = "" ∨
          containsCI (displayString (lookupVal r kf.1)) kf.2 = true := by
      unfold filterPass
      simp [List.all_eq_true]
    rw [h]
  · decide

/-- C6: a null or absent field is treated as the empty string by search
and filter matching: it never errors and never matches a non-empty
term; render handles the empty collection without error. -/
theorem null_field_safety_spec (r : Rec) (k : String) (hk : r.lookup k = none)
    (T : String) (hT : T ≠ "") (cols : List Column) (st : ViewState) :
    lookupVal r k = Value.null
    ∧ displayString (lookupVal r k) = ""
    ∧ containsCI (displayString (lookupVal r k)) T = false
    ∧ render [] cols st = { rows := [], totalCount := 0, totalPages := 1 } := by
  have h1 : lookupVal r k = Value.null := by
    unfold lookupVal
    rw [hk]
  have h2 : displayString (lookupVal r k) = "" := by rw [h1]; rfl
  have hdata : T.data ≠ [] := by
    intro h
    apply hT
    cases T with
    | mk l =>
      cases h
      decide
  have h3 : containsCI (displayString (lookupVal r k)) T = false := by
    rw [h2]
    unfold containsCI
    cases hne : lowerChars T with
    | nil =>
      exfalso
      apply hdata
      unfold lowerChars at hne
      exact List.map_eq_nil_iff.mp hne
    | cons a l => rfl
  have hs : searchStep st.searchTerm [] = [] := by
    unfold searchStep
    split <;> rfl
  have hf : filterStage st.searchTerm st.columnFilters [] = [] := by
    unfold filterStage
    rw [hs]
    rfl
  have hsort : sortStage st.sortColumn st.sortDirection [] = [] := by
    cases st.sortColumn <;> rfl
  refine ⟨h1, h2, h3, ?_⟩
  simp [render, hf, hsort, totalPagesOf_zero]

/-- C6 witness: concrete instance with an absent field and a non-empty
search term. -/
theorem null_field_safety_spec_witness :
    lookupVal [("a", Value.num 1)] "b" = Value.null
    ∧ displayString (lookupVal [("a", Value.num 1)] "b") = ""
    ∧ containsCI (displayString (lookupVal [("a", Value.num 1)] "b")) "x" = false
    ∧ render [] [] ⟨"", [], none, .asc, 1, 10⟩ =
        { rows := [], totalCount := 0, totalPages := 1 } :=
  null_field_safety_spec [("a", Value.num 1)] "b" (by decide) "x" (by decide) []
    ⟨"", [], none, .asc, 1, 10⟩

end Relife

namespace Relife

theorem rows_ne_nil_aux (l : List Rec) (P cp : Nat) (hP : 0 < P) (hl : 0 < l.length) :
    (l.drop ((min cp (totalPagesOf l.length P) - 1) * P)).take P ≠ [] := by
  have h3 := totalPagesOf_pred_mul_lt l.length P hP hl
  have h1 : min cp (totalPagesOf l.length P) ≤ totalPagesOf l.length P :=
    Nat.min_le_right _ _
  have hk : (min cp (totalPagesOf l.length P) - 1) * P < l.length :=
    lt_of_le_of_lt (Nat.mul_le_mul_right _ (Nat.sub_le_sub_right h1 1)) h3
  generalize (min cp (totalPagesOf l.length P) - 1) * P = k at hk ⊢
  intro he
  have hlen := congrArg List.length he
  rw [List.length_take, List.length_drop, List.length_nil] at hlen
  omega

/-- C2: the reported totalPages is the ceiling of the filtered count
over the page size, with a floor of one page when the count is zero. -/
theorem totalPages_ceil_spec (c : List Rec) (cols : List Column) (st : ViewState)
    (hP : 0 < st.pageSize) :
    (render c cols st).totalPages =
      max 1 ((render c cols st).totalCount ⌈/⌉ st.pageSize)
    ∧ ((render c cols st).totalCount = 0 → (render c cols st).totalPages = 1)
    ∧ (0 < (render c cols st).totalCount →
        (render c cols st).totalCount ≤
            (render c cols st).totalPages * st.pageSize
          ∧ (render c cols st).totalPages * st.pageSize <
              (render c cols st).totalCount + st.pageSize) := by
  refine ⟨?_, ?_, ?_⟩
  · rw [render_totalPages, Nat.ceilDiv_eq_add_pred_div]
    rfl
  · intro h0
    rw [render_totalPages, h0, totalPagesOf_zero]
  · intro hpos
    rw [render_totalPages]
    exact totalPagesOf_bounds _ _ hP hpos

/-- C2 witness: 5 filtered records with page size 2 give 3 pages. -/
theorem totalPages_ceil_spec_witness :
    (render [[("a", Value.num 1)], [("a", Value.num 2)], [("a", Value.num 3)],
        [("a", Value.num 4)], [("a", Value.num 5)]] []
        ⟨"", [], none, .asc, 1, 2⟩).totalPages =
      max 1 ((render [[("a", Value.num 1)], [("a", Value.num 2)], [("a", Value.num 3)],
        [("a", Value.num 4)], [("a", Value.num 5)]] []
        ⟨"", [], none, .asc, 1, 2⟩).totalCount ⌈/⌉
        (⟨"", [], none, .asc, 1, 2⟩ : ViewState).pageSize)
    ∧ ((render [[("a", Value.num 1)], [("a", Value.num 2)], [("a", Value.num 3)],
        [("a", Value.num 4)], [("a", Value.num 5)]] []
        ⟨"", [], none, .asc, 1, 2⟩).totalCount = 0 →
        (render [[("a", Value.num 1)], [("a", Value.num 2)], [("a", Value.num 3)],
        [("a", Value.num 4)], [("a", Value.num 5)]] []
        ⟨"", [], none, .asc, 1, 2⟩).totalPages = 1)
    ∧ (0 < (render [[("a", Value.num 1)], [("a", Value.num 2)], [("a", Value.num 3)],
        [("a", Value.num 4)], [("a", Value.num 5)]] []
        ⟨"", [], none, .asc, 1, 2⟩).totalCount →
        (render [[("a", Value.num 1)], [("a", Value.num 2)], [("a", Value.num 3)],
        [("a", Value.num 4)], [("a", Value.num 5)]] []
        ⟨"", [], none, .asc, 1, 2⟩).totalCount ≤
            (render [[("a", Value.num 1)], [("a", Value.num 2)], [("a", Value.num 3)],
        [("a", Value.num 4)], [("a", Value.num 5)]] []
        ⟨"", [], none, .asc, 1, 2⟩).totalPages *
              (⟨"", [], none, .asc, 1, 2⟩ : ViewState).pageSize
          ∧ (render [[("a", Value.num 1)], [("a", Value.num 2)], [("a", Value.num 3)],
        [("a", Value.num 4)], [("a", Value.num 5)]] []
        ⟨"", [], none, .asc, 1, 2⟩).totalPages *
              (⟨"", [], none, .asc, 1, 2⟩ : ViewState).pageSize <
              (render [[("a", Value.num 1)], [("a", Value.num 2)], [("a", Value.num 3)],
        [("a", Value.num 4)], [("a", Value.num 5)]] []
        ⟨"", [], none, .asc, 1, 2⟩).totalCount +
                (⟨"", [], none, .asc, 1, 2⟩ : ViewState).pageSize) :=
  totalPages_ceil_spec
    [[("a", Value.num 1)], [("a", Value.num 2)], [("a", Value.num 3)],
      [("a", Value.num 4)], [("a", Value.num 5)]] []
    ⟨"", [], none, .asc, 1, 2⟩ (by decide)

/-- C3: a currentPage beyond totalPages yields exactly the rows of the
call with currentPage equal to totalPages (clamp, not error), and a
non-empty filtered result always yields a non-empty page. -/
theorem currentPage_clamp_spec (c : List Rec) (cols : List Column) (st : ViewState)
    (hP : 0 < st.pageSize) :
    ((render c cols st).totalPages < st.currentPage →
      (render c cols st).rows =
        (render c cols { st with currentPage := (render c cols st).totalPages }).rows)
    ∧ ((render c cols st).totalCount ≠ 0 → (render c cols st).rows ≠ []) := by
  constructor
  · intro hcp
    rw [render_rows c cols st,
      render_rows c cols { st with currentPage := (render c cols st).totalPages }]
    show _ = ((sortStage st.sortColumn st.sortDirection
        (filterStage st.searchTerm st.columnFilters c)).drop
        ((min (render c cols st).totalPages (render c cols st).totalPages - 1) *
          st.pageSize)).take st.pageSize
    rw [Nat.min_self, Nat.min_eq_right (Nat.le_of_lt hcp)]
  · intro hn0
    rw [render_rows, render_totalPages, render_totalCount]
    apply rows_ne_nil_aux _ _ _ hP
    rw [render_totalCount] at hn0
    exact Nat.pos_of_ne_zero hn0

/-- C3 witness: 5 records, page size 2, requested page 9 returns the
rows of page 3, and the page is non-empty. -/
theorem currentPage_clamp_spec_witness :
    (render [[("a", Value.num 1)], [("a", Value.num 2)], [("a", Value.num 3)],
        [("a", Value.num 4)], [("a", Value.num 5)]] []
        ⟨"", [], none, .asc, 9, 2⟩).rows =
      (render [[("a", Value.num 1)], [("a", Value.num 2)], [("a", Value.num 3)],
        [("a", Value.num 4)], [("a", Value.num 5)]] []
        { (⟨"", [], none, .asc, 9, 2⟩ : ViewState) with
          currentPage :=
            (render [[("a", Value.num 1)], [("a", Value.num 2)], [("a", Value.num 3)],
              [("a", Value.num 4)], [("a", Value.num 5)]] []
              ⟨"", [], none, .asc, 9, 2⟩).totalPages }).rows
    ∧ (render [[("a", Value.num 1)], [("a", Value.num 2)], [("a", Value.num 3)],
        [("a", Value.num 4)], [("a", Value.num 5)]] []
        ⟨"", [], none, .asc, 9, 2⟩).rows ≠ [] :=
  ⟨(currentPage_clamp_spec [[("a", Value.num 1)], [("a", Value.num 2)],
      [("a", Value.num 3)], [("a", Value.num 4)], [("a", Value.num 5)]] []
      ⟨"", [], none, .asc, 9, 2⟩ (by decide)).1 (by decide),
    (currentPage_clamp_spec [[("a", Value.num 1)], [("a", Value.num 2)],
      [("a", Value.num 3)], [("a", Value.num 4)], [("a", Value.num 5)]] []
      ⟨"", [], none, .asc, 9, 2⟩ (by decide)).2 (by decide)⟩

end Relife

namespace Relife

/-- C4: the sort is stable: the subsequence of filtered records whose
value at the sort column equals any fixed value is unchanged by the
sort stage; render's page is a subsequence of the sorted sequence; and
with sortColumn unset the page is a subsequence of the input collection
(order fully preserved). -/
theorem sort_stability_spec (c : List Rec) (cols : List Column) (st : ViewState)
    (key : String) (v : Value) :
    (st.sortColumn = some key →
      (sortStage st.sortColumn st.sortDirection
          (filterStage st.searchTerm st.columnFilters c)).filter
          (fun r => decide (lookupVal r key = v)) =
        (filterStage st.searchTerm st.columnFilters c).filter
          (fun r => decide (lookupVal r key = v)))
    ∧ (render c cols st).rows.Sublist
        (sortStage st.sortColumn st.sortDirection
          (filterStage st.searchTerm st.columnFilters c))
    ∧ (st.sortColumn = none → (render c cols st).rows.Sublist c) := by
  have hrows : (render c cols st).rows.Sublist
      (sortStage st.sortColumn st.sortDirection
        (filterStage st.searchTerm st.columnFilters c)) := by
    rw [render_rows]
    exact (List.take_sublist _ _).trans (List.drop_sublist _ _)
  refine ⟨?_, hrows, ?_⟩
  · intro hsc
    rw [hsc]
    show (insertionSort (recLt st.sortDirection key) _).filter _ = _
    apply filter_insertionSort
    intro x y hx hlt
    rw [decide_eq_true_eq] at hx
    rw [decide_eq_false_iff_not]
    intro hy
    cases hdir : st.sortDirection with
    | asc =>
      rw [hdir] at hlt
      simp only [recLt] at hlt
      exact valLt_ne _ _ hlt (by rw [hx, hy])
    | desc =>
      rw [hdir] at hlt
      simp only [recLt] at hlt
      exact valLt_ne _ _ hlt (by rw [hx, hy])
  · intro hsc
    have hsearch : (searchStep st.searchTerm c).Sublist c := by
      unfold searchStep
      split
    
      · exact List.Sublist.refl c
      · exact List.filter_sublist c
    have hfilter : (filterStage st.searchTerm st.columnFilters c).Sublist c :=
      (List.filter_sublist _).trans hsearch
    rw [hsc] at hrows
    exact hrows.trans hfilter

/-- C4 witness: with an ascending sort on column a, two records with
the equal key 1 keep their filtered order through the sort stage. -/
theorem sort_stability_spec_witness :
    (sortStage (some "a") SortDirection.asc
        (filterStage "" []
          [[("a", Value.num 1), ("b", Value.str "x")],
            [("a", Value.num 1), ("b", Value.str "y")]])).filter
        (fun r => decide (lookupVal r "a" = Value.num 1)) =
      (filterStage "" []
        [[("a", Value.num 1), ("b", Value.str "x")],
          [("a", Value.num 1), ("b", Value.str "y")]]).filter
        (fun r => decide (lookupVal r "a" = Value.num 1)) :=
  (sort_stability_spec
    [[("a", Value.num 1), ("b", Value.str "x")],
      [("a", Value.num 1), ("b", Value.str "y")]] []
    ⟨"", [], some "a", .asc, 1, 10⟩ "a" (Value.num 1)).1 (by decide)

end Relife

namespace Relife

/-- C8: a failed store delete leaves the local collection unchanged and
only surfaces an error message; a successful delete removes exactly the
records whose id equals the deleted record's id, keeping the others in
their original order. -/
theorem confirmDelete_spec (coll : List StoredRec) (t : StoredRec) :
    (∀ code, (confirmDelete coll t (.err code)).1 = coll
      ∧ (confirmDelete coll t (.err code)).2 = some (deleteErrorMessage code))
    ∧ (confirmDelete coll t .ok).2 = none
    ∧ (∀ p, p ∈ (confirmDelete coll t .ok).1 ↔ p ∈ coll ∧ p.id ≠ t.id)
    ∧ ((confirmDelete coll t .ok).1).Sublist coll := by
  refine ⟨fun code => ⟨rfl, rfl⟩, rfl, ?_, ?_⟩
  · intro p
    simp [confirmDelete, List.mem_filter]
  · exact List.filter_sublist coll

/-- C10: after handleAttendance, the attendance map has exactly one
boolean entry per loaded personnel member, namely the stored attended
flag of their fetched record when one exists and false otherwise, and
no other keys. -/
theorem attendance_map_spec (ps : List Person) (atts : List AttRow)
    (hnd : (ps.map Person.id).Nodup) :
    (buildAttendanceMap ps atts).map Prod.fst = ps.map Person.id
    ∧ ∀ p ∈ ps, (buildAttendanceMap ps atts).lookup p.id =
        some (attendedFlag atts p.id) := by
  constructor
  · unfold buildAttendanceMap
    rw [List.map_map]
    rfl
  · induction ps with
    | nil =>
      intro p hp
      cases hp
    | cons q qs ih =>
      intro p hp
      rw [List.map_cons, List.nodup_cons] at hnd
      have hmap : buildAttendanceMap (q :: qs) atts =
          (q.id, attendedFlag atts q.id) :: buildAttendanceMap qs atts := rfl
      rw [hmap]
      rcases List.mem_cons.mp hp with hpq | hpqs
      · subst hpq
        simp [List.lookup]
      · have hne : p.id ≠ q.id := by
          intro he
          apply hnd.1
          rw [← he]
          exact List.mem_map_of_mem Person.id hpqs
        have hbeq : (p.id == q.id) = false := beq_eq_false_iff_ne.mpr hne
        simp only [List.lookup, hbeq]
        exact ih hnd.2 p hpqs

/-- C10 witness: two personnel members, one fetched attendance record:
the map keys are exactly the personnel ids and each member maps to
their stored flag or false. -/
theorem attendance_map_spec_witness :
    (buildAttendanceMap [⟨"p1", "A"⟩, ⟨"p2", "B"⟩] [⟨"p2", true⟩]).map Prod.fst =
        ([⟨"p1", "A"⟩, ⟨"p2", "B"⟩] : List Person).map Person.id
    ∧ (buildAttendanceMap [⟨"p1", "A"⟩, ⟨"p2", "B"⟩] [⟨"p2", true⟩]).lookup "p2" =
        some (attendedFlag [⟨"p2", true⟩] "p2") :=
  ⟨(attendance_map_spec [⟨"p1", "A"⟩, ⟨"p2", "B"⟩] [⟨"p2", true⟩] (by decide)).1,
    (attendance_map_spec [⟨"p1", "A"⟩, ⟨"p2", "B"⟩] [⟨"p2", true⟩] (by decide)).2
      ⟨"p2", "B"⟩ (by decide)⟩

end Relife

namespace Relife

theorem classRun_eq_some (p : Char → Bool) (n : Nat) (l r : List Char) :
    classRun p n l = some r ↔ ∃ g, l = g ++ r ∧ g.length = n ∧ g.all p = true := by
  induction n generalizing l with
  | zero =>
    constructor
    · intro h
      refine ⟨[], ?_, rfl, rfl⟩
      simpa [classRun] using h
    · rintro ⟨g, hl, hlen, _⟩
      have hg : g = [] := List.length_eq_zero.mp hlen
      subst hg
      simpa [classRun] using hl
  | succ n ih =>
    cases l with
    | nil =>
      constructor
      · intro h
        exact absurd h (by simp [classRun])
      · rintro ⟨g, hl, hlen, _⟩
        exfalso
        have hg : g = [] ∧ r = [] := List.append_eq_nil.mp hl.symm
        rw [hg.1] at hlen
        simp at hlen
    | cons a as =>
      cases hp : p a with
      | true =>
        rw [show classRun p (n + 1) (a :: as) = classRun p n as from by
          simp [classRun, hp]]
        constructor
        · intro h
          obtain ⟨g, hl, hlen, hall⟩ := (ih as).mp h
          exact ⟨a :: g, by rw [List.cons_append, hl], by simp [hlen],
            by simp [List.all_cons, hp, hall]⟩
        · rintro ⟨g, hl, hlen, hall⟩
          cases g with
          | nil => simp at hlen
          | cons b bs =>
            injection hl with h1 h2
            rw [h1] at hp
            rw [List.all_cons] at hall
            exact (ih as).mpr ⟨bs, h2, by simpa using hlen,
              by simpa [hp] using hall⟩
      | false =>
        rw [show classRun p (n + 1) (a :: as) = none from by simp [classRun, hp]]
        constructor
        · intro h
          cases h
        · rintro ⟨g, hl, hlen, hall⟩
          exfalso
          cases g with
          | nil => simp at hlen
          | cons b bs =>
            injection hl with h1 h2
            rw [List.all_cons] at hall
            rw [← h1, hp] at hall
            simp at hall

theorem expectChar_eq_some (c : Char) (l r : List Char) :
    expectChar c l = some r ↔ l = c :: r := by
  cases l with
  | nil =>
    constructor
    · intro h
      cases h
    · intro h
      cases h
  | cons d l' =>
    cases hd : d == c with
    | true =>
      rw [show expectChar c (d :: l') = some l' from by simp [expectChar, hd]]
      rw [beq_iff_eq] at hd
      subst hd
      constructor
      · intro h
        injection h with h'
        rw [h']
      · intro h
        injection h with h1 h2
        rw [h2]
    | false =>
      rw [show expectChar c (d :: l') = none from by simp [expectChar, hd]]
      constructor
      · intro h
        cases h
      · intro h
        injection h with h1 h2
        rw [h1] at hd
        simp at hd

theorem expectIn_eq_some (p : Char → Bool) (l r : List Char) :
    expectIn p l = some r ↔ ∃ d, l = d :: r ∧ p d = true := by
  cases l with
  | nil =>
    constructor
    · intro h
      cases h
    · rintro ⟨d, hd, _⟩
      cases hd
  | cons d l' =>
    cases hp : p d with
    | true =>
      rw [show expectIn p (d :: l') = some l' from by simp [expectIn, hp]]
      constructor
      · intro h
        injection h with h'
        exact ⟨d, by rw [h'], hp⟩
      · rintro ⟨e, he, hpe⟩
        injection he with h1 h2
        rw [h2]
    | false =>
      rw [show expectIn p (d :: l') = none from by simp [expectIn, hp]]
      constructor
      · intro h
        cases h
      · rintro ⟨e, he, hpe⟩
        injection he with h1 h2
        rw [← h1] at hpe
        rw [hp] at hpe
        cases hpe

end Relife

namespace Relife

theorem uuidRegexTest_iff (s : String) : uuidRegexTest s = true ↔ uuidSpec s := by
  unfold uuidRegexTest
  rw [beq_iff_eq]
  constructor
  · intro h
    obtain ⟨rA, hA, hA'⟩ := Option.bind_eq_some.mp h
    obtain ⟨rB, hB, hB'⟩ := Option.bind_eq_some.mp hA
    obtain ⟨rC, hC, hC'⟩ := Option.bind_eq_some.mp hB
    obtain ⟨rD, hD, hD'⟩ := Option.bind_eq_some.mp hC
    obtain ⟨rE, hE, hE'⟩ := Option.bind_eq_some.mp hD
    obtain ⟨rF, hF, hF'⟩ := Option.bind_eq_some.mp hE
    obtain ⟨rG, hG, hG'⟩ := Option.bind_eq_some.mp hF
    obtain ⟨rH, hH, hH'⟩ := Option.bind_eq_some.mp hG
    obtain ⟨rI, hI, hI'⟩ := Option.bind_eq_some.mp hH
    obtain ⟨rJ, hJ, hJ'⟩ := Option.bind_eq_some.mp hI
    obtain ⟨g1, hs1, hlen1, hall1⟩ := (classRun_eq_some _ _ _ _).mp hJ
    have hJ2 := (expectChar_eq_some _ _ _).mp hJ'
    obtain ⟨g2, hs2, hlen2, hall2⟩ := (classRun_eq_some _ _ _ _).mp hI'
    have hH2 := (expectChar_eq_some _ _ _).mp hH'
    obtain ⟨v, hsv, hv⟩ := (expectIn_eq_some _ _ _).mp hG'
    obtain ⟨g3, hs3, hlen3, hall3⟩ := (classRun_eq_some _ _ _ _).mp hF'
    have hE2 := (expectChar_eq_some _ _ _).mp hE'
    obtain ⟨w, hsw, hw⟩ := (expectIn_eq_some _ _ _).mp hD'
    obtain ⟨g4, hs4, hlen4, hall4⟩ := (classRun_eq_some _ _ _ _).mp hC'
    have hB2 := (expectChar_eq_some _ _ _).mp hB'
    obtain ⟨g5, hs5, hlen5, hall5⟩ := (classRun_eq_some _ _ _ _).mp hA'
    refine ⟨g1, g2, g3, g4, g5, v, w, ?_, hlen1, hall1, hlen2, hall2, hv,
      hlen3, hall3, hw, hlen4, hall4, hlen5, hall5⟩
    rw [hs1, hJ2, hs2, hH2, hsv, hs3, hE2, hsw, hs4, hB2, hs5, List.append_nil]
  · rintro ⟨g1, g2, r3c, r4c, g5, v, w, heq, hl1, ha1, hl2, ha2, hv, hl3, ha3,
      hw, hl4, ha4, hl5, ha5⟩
    refine Option.bind_eq_some.mpr
      ⟨g5, ?_, (classRun_eq_some _ _ _ _).mpr ⟨g5, (List.append_nil g5).symm, hl5, ha5⟩⟩
    refine Option.bind_eq_some.mpr
      ⟨'-' :: g5, ?_, (expectChar_eq_some _ _ _).mpr rfl⟩
    refine Option.bind_eq_some.mpr
      ⟨r4c ++ '-' :: g5, ?_, (classRun_eq_some _ _ _ _).mpr ⟨r4c, rfl, hl4, ha4⟩⟩
    refine Option.bind_eq_some.mpr
      ⟨w :: (r4c ++ '-' :: g5), ?_, (expectIn_eq_some _ _ _).mpr ⟨w, rfl, hw⟩⟩
    refine Option.bind_eq_some.mpr
      ⟨'-' :: w :: (r4c ++ '-' :: g5), ?_, (expectChar_eq_some _ _ _).mpr rfl⟩
    refine Option.bind_eq_some.mpr
      ⟨r3c ++ '-' :: w :: (r4c ++ '-' :: g5), ?_,
        (classRun_eq_some _ _ _ _).mpr ⟨r3c, rfl, hl3, ha3⟩⟩
    refine Option.bind_eq_some.mpr
      ⟨v :: (r3c ++ '-' :: w :: (r4c ++ '-' :: g5)), ?_,
        (expectIn_eq_some _ _ _).mpr ⟨v, rfl, hv⟩⟩
    refine Option.bind_eq_some.mpr
      ⟨'-' :: v :: (r3c ++ '-' :: w :: (r4c ++ '-' :: g5)), ?_,
        (expectChar_eq_some _ _ _).mpr rfl⟩
    refine Option.bind_eq_some.mpr
      ⟨g2 ++ '-' :: v :: (r3c ++ '-' :: w :: (r4c ++ '-' :: g5)), ?_,
        (classRun_eq_some _ _ _ _).mpr ⟨g2, rfl, hl2, ha2⟩⟩
    refine Option.bind_eq_some.mpr
      ⟨'-' :: (g2 ++ '-' :: v :: (r3c ++ '-' :: w :: (r4c ++ '-' :: g5))), ?_,
        (expectChar_eq_some _ _ _).mpr rfl⟩
    exact (classRun_eq_some _ _ _ _).mpr ⟨g1, heq, hl1, ha1⟩

/-- C9: isValidUUID is total, returns false on null and undefined, and
accepts a string exactly when it matches the 8-4-4-4-12 hexadecimal
UUID pattern with version digit 1-5 and variant digit 8, 9, a or b,
case-insensitively. -/
theorem isValidUUID_spec :
    isValidUUID none = false
    ∧ ∀ s : String, (isValidUUID (some s) = true ↔ uuidSpec s) := by
  refine ⟨rfl, ?_⟩
  intro s
  show (if (s == "") = true then false else uuidRegexTest s) = true ↔ uuidSpec s
  cases hs : s == "" with
  | true =>
    rw [if_pos rfl]
    rw [beq_iff_eq] at hs
    subst hs
    constructor
    · intro h
      cases h
    · rintro ⟨g1, g2, r3c, r4c, g5, v, w, heq, hrest⟩
      exfalso
      have h0 : ("" : String).data = ([] : List Char) := rfl
      rw [h0] at heq
      exact absurd heq.symm (by simp)
  | false =>
    rw [if_neg Bool.false_ne_true]
    exact uuidRegexTest_iff s

end Relife
